import Mathlib

/-!
Verification of the reliability layer of the web-interaction toolkit
(`server_enhanced.py`): retry with exponential backoff, circuit breaker,
rate limiter, TTL cache with bounded size, and the authenticated session
registry, together with the control flow of the `scrape_webpage` fetch tool.

Wall-clock time is modelled as integer seconds: `datetime.now()` /
`time.time()` become explicit `now : ℤ` parameters threaded through each
operation (every time comparison in the source is against a whole number of
seconds, so integer timestamps lose nothing the claims depend on).
-/

namespace WebToolkit

/-- `Config.MAX_RETRIES = int(os.getenv('MCP_MAX_RETRIES', '3'))`: the
configured retry count, default 3. -/
def Config.MAX_RETRIES : ℤ := 3

/-! ## Retry engine (`retry_with_backoff`) -/

/-- Observable outcome of one run of `retry_with_backoff`:
`result` is `none` when the `for` loop body never runs (Python falls off the
loop and returns `None`), otherwise the value returned or the exception
re-raised; `calls` counts invocations of `func`; `delays` lists the backoff
sleeps (without jitter) performed between attempts. -/
structure RetryOut (E A : Type) where
  result : Option (Except E A)
  calls : ℕ
  delays : List ℚ
  deriving Repr

/-- `backoff = min(backoff_factor ** attempt, max_backoff)`. -/
def backoffDelay (bf maxB : ℚ) (attempt : ℕ) : ℚ :=
  min (bf ^ attempt) maxB

/-- The `for attempt in range(max_retries)` loop of `retry_with_backoff`:
`attempt` is the current index, the second argument the number of remaining
iterations.  On success the value is returned; on failure at the last
iteration (`attempt == max_retries - 1`) the exception is re-raised;
otherwise the loop sleeps `min(backoff_factor ** attempt, max_backoff)`
(plus jitter, not modelled) and continues. -/
def retryGo {E A : Type} (op : ℕ → Except E A) (bf maxB : ℚ) :
    ℕ → ℕ → RetryOut E A
  | _, 0 => ⟨none, 0, []⟩
  | attempt, r + 1 =>
    match op attempt with
    | .ok a => ⟨some (.ok a), 1, []⟩
    | .error e =>
      if r = 0 then ⟨some (.error e), 1, []⟩
      else
        let rest := retryGo op bf maxB (attempt + 1) r
        ⟨rest.result, rest.calls + 1, backoffDelay bf maxB attempt :: rest.delays⟩

/-- `max_retries = max_retries or Config.MAX_RETRIES`: Python replaces a
falsy argument (`None` or `0`) by the configured default. -/
def effectiveMaxRetries (maxRetries : Option ℤ) : ℤ :=
  match maxRetries with
  | none => Config.MAX_RETRIES
  | some n => if n = 0 then Config.MAX_RETRIES else n

/-- `retry_with_backoff(func, max_retries, backoff_factor, max_backoff)`;
`range` of a non-positive bound is empty, hence `Int.toNat`. -/
def retryWithBackoff {E A : Type} (op : ℕ → Except E A)
    (maxRetries : Option ℤ) (bf maxB : ℚ) : RetryOut E A :=
  retryGo op bf maxB 0 (effectiveMaxRetries maxRetries).toNat

theorem retryGo_allFail {E A : Type} (errs : ℕ → E) (bf maxB : ℚ)
    (r : ℕ) : ∀ attempt : ℕ,
    retryGo (fun i => (Except.error (errs i) : Except E A)) bf maxB attempt (r + 1) =
      ⟨some (Except.error (errs (attempt + r))), r + 1,
       (List.range r).map (fun i => backoffDelay bf maxB (attempt + i))⟩ := by
  induction r with
  | zero => intro attempt; simp [retryGo]
  | succ r ih =>
    intro attempt
    rw [retryGo]
    simp only [ih (attempt + 1)]
    rw [if_neg (by omega : ¬ (r + 1 = 0))]
    have h1 : attempt + 1 + r = attempt + (r + 1) := by omega
    have h2 : (List.range (r + 1)).map (fun i => backoffDelay bf maxB (attempt + i))
        = backoffDelay bf maxB attempt ::
          (List.range r).map (fun i => backoffDelay bf maxB (attempt + 1 + i)) := by
      rw [List.range_succ_eq_map, List.map_cons, List.map_map]
      refine congrArg₂ _ (by rw [Nat.add_zero]) ?_
      congr 1
      funext i
      simp only [Function.comp_apply]
      have h3 : attempt + Nat.succ i = attempt + 1 + i := by omega
      rw [h3]
    rw [h1, h2]

/-- C1: if the wrapped operation fails on every attempt, `retry_with_backoff`
with `max_retries = n ≥ 1` invokes it exactly `n` times, re-raises the final
exception itself (the original, not a wrapper), and the backoff delays before
retries (ignoring jitter) are `min(backoff_factor ^ attempt, max_backoff)` for
`attempt = 0, …, n - 2`; with `backoff_factor ≥ 1` they grow monotonically
between attempts and each is at most `max_backoff`. -/
theorem retry_exhaustion {E A : Type} (op : ℕ → Except E A) (errs : ℕ → E)
    (hop : ∀ i, op i = Except.error (errs i))
    (n : ℕ) (hn : 1 ≤ n) (bf maxB : ℚ) (hbf : 1 ≤ bf) :
    (retryWithBackoff op (some (n : ℤ)) bf maxB).calls = n ∧
    (retryWithBackoff op (some (n : ℤ)) bf maxB).result
      = some (Except.error (errs (n - 1))) ∧
    (retryWithBackoff op (some (n : ℤ)) bf maxB).delays
      = (List.range (n - 1)).map (backoffDelay bf maxB) ∧
    (retryWithBackoff op (some (n : ℤ)) bf maxB).delays.Pairwise (· ≤ ·) ∧
    ∀ d ∈ (retryWithBackoff op (some (n : ℤ)) bf maxB).delays, d ≤ maxB := by
  have hopf : op = fun i => (Except.error (errs i) : Except E A) := funext hop
  subst hopf
  have hm : (effectiveMaxRetries (some (n : ℤ))).toNat = n := by
    simp only [effectiveMaxRetries]
    split <;> omega
  obtain ⟨m, rfl⟩ : ∃ m, n = m + 1 := ⟨n - 1, by omega⟩
  unfold retryWithBackoff
  rw [hm, retryGo_allFail errs bf maxB m 0]
  refine ⟨rfl, by simp, by simp, ?_, ?_⟩
  · refine List.Pairwise.map _ (fun a b hab => ?_) (List.pairwise_lt_range m)
    simp only [Nat.zero_add]
    exact min_le_min (pow_le_pow_right₀ hbf hab.le) le_rfl
  · intro d hd
    rcases List.mem_map.mp hd with ⟨i, _, rfl⟩
    exact min_le_right _ _

/-- Witness for C1: three attempts, factor 2, cap 60, operation failing with
exception `i` on attempt `i`. -/
theorem retry_exhaustion_witness :
    (retryWithBackoff (fun i => (Except.error i : Except ℕ ℕ)) (some 3) 2 60).calls = 3 :=
  (retry_exhaustion (fun i => Except.error i) (fun i => i) (fun _ => rfl) 3
    (by norm_num) 2 60 (by norm_num)).1

/-- C10: a falsy `max_retries` argument (`None` or `0`) is replaced by
`Config.MAX_RETRIES` (default 3), so an always-failing operation is attempted
exactly the default number of times, not zero times. -/
theorem retry_falsy_uses_default {E A : Type} (op : ℕ → Except E A) (errs : ℕ → E)
    (hop : ∀ i, op i = Except.error (errs i)) (bf maxB : ℚ) :
    effectiveMaxRetries none = Config.MAX_RETRIES ∧
    effectiveMaxRetries (some 0) = Config.MAX_RETRIES ∧
    (retryWithBackoff op none bf maxB).calls = 3 ∧
    (retryWithBackoff op (some 0) bf maxB).calls = 3 := by
  have hopf : op = fun i => (Except.error (errs i) : Except E A) := funext hop
  subst hopf
  refine ⟨rfl, rfl, ?_, ?_⟩
  · unfold retryWithBackoff
    rw [show (effectiveMaxRetries none).toNat = 2 + 1 from rfl,
      retryGo_allFail errs bf maxB 2 0]
  · unfold retryWithBackoff
    rw [show (effectiveMaxRetries (some 0)).toNat = 2 + 1 from rfl,
      retryGo_allFail errs bf maxB 2 0]

/-- Witness for C10: with `max_retries = None` the operation is attempted
three times. -/
theorem retry_falsy_uses_default_witness :
    (retryWithBackoff (fun i => (Except.error i : Except ℕ ℕ)) none 2 60).calls = 3 :=
  (retry_falsy_uses_default (fun i => Except.error i) (fun i => i)
    (fun _ => rfl) 2 60).2.2.1

/-! ## Circuit breaker (`CircuitBreaker`) -/

/-- Python's `timedelta.seconds` attribute, as used in
`(datetime.now() - self.last_failure_time[endpoint]).seconds`: the seconds
component of the normalized timedelta, i.e. the whole seconds modulo one day
(86400), not the total elapsed seconds.  (On an integer-second duration the
floor Python takes is the identity.) -/
def timedeltaSeconds (t : ℤ) : ℤ :=
  t % 86400

/-- Constructor arguments of `CircuitBreaker` (defaults 5 and 60). -/
structure CircuitBreaker where
  failure_threshold : ℕ
  recovery_timeout : ℤ

/-- The two per-endpoint dicts `self.failures` / `self.last_failure_time`;
`none` models absence from the dict. -/
structure CBState where
  failures : String → Option ℕ
  last_failure_time : String → Option ℤ

/-- Both dicts start empty. -/
def CBState.init : CBState :=
  ⟨fun _ => none, fun _ => none⟩

/-- `CircuitBreaker.is_open(endpoint)`: returns the boolean together with the
state after the lazy recovery reset. -/
def isOpen (cb : CircuitBreaker) (s : CBState) (endpoint : String) (now : ℤ) :
    Bool × CBState :=
  match s.failures endpoint with
  | none => (false, s)
  | some count =>
    match s.last_failure_time endpoint with
    | some t =>
      if timedeltaSeconds (now - t) > cb.recovery_timeout then
        (false,
         ⟨Function.update s.failures endpoint (some 0),
          Function.update s.last_failure_time endpoint none⟩)
      else (decide (cb.failure_threshold ≤ count), s)
    | none => (decide (cb.failure_threshold ≤ count), s)

/-- `CircuitBreaker.record_success(endpoint)`. -/
def recordSuccess (s : CBState) (endpoint : String) : CBState :=
  match s.failures endpoint with
  | none => s
  | some _ =>
    ⟨Function.update s.failures endpoint (some 0),
     Function.update s.last_failure_time endpoint none⟩

/-- `CircuitBreaker.record_failure(endpoint)` at wall-clock time `now`. -/
def recordFailure (s : CBState) (endpoint : String) (now : ℤ) : CBState :=
  ⟨Function.update s.failures endpoint (some ((s.failures endpoint).getD 0 + 1)),
   Function.update s.last_failure_time endpoint (some now)⟩

/-- Consecutive `record_failure` calls at the listed times. -/
def recordFailures (s : CBState) (endpoint : String) : List ℤ → CBState
  | [] => s
  | t :: ts => recordFailures (recordFailure s endpoint t) endpoint ts

theorem recordFailures_cons (ep : String) (ts : List ℤ) :
    ∀ (s : CBState) (t : ℤ),
      (recordFailures s ep (t :: ts)).failures ep
          = some ((s.failures ep).getD 0 + 1 + ts.length) ∧
      (recordFailures s ep (t :: ts)).last_failure_time ep
          = some (ts.getLastD t) := by
  induction ts with
  | nil =>
    intro s t
    simp [recordFailures, recordFailure, Function.update_same]
  | cons t2 ts2 ih =>
    intro s t
    rw [recordFailures]
    rcases ih (recordFailure s ep t) t2 with ⟨h1, h2⟩
    refine ⟨?_, ?_⟩
    · rw [h1]
      simp only [recordFailure, Function.update_same, Option.getD_some, List.length_cons]
      exact congrArg some (by omega)
    · rw [h2, List.getLastD_cons]

/-- C2 counterexample: with `failure_threshold = 5`, `recovery_timeout = 60`,
five failures on record and the last failure at time 0, checked at time 60:
exactly `recovery_timeout` seconds (not fewer) have elapsed, yet `is_open`
still returns `true`, refuting "open iff failure count ≥ threshold and fewer
than `recovery_timeout` seconds have elapsed". -/
theorem circuit_open_iff_counterexample :
    ¬ (((isOpen ⟨5, 60⟩ ⟨fun _ => some 5, fun _ => some 0⟩ "example.com" 60).1 = true)
        ↔ (5 ≤ 5 ∧ (60 : ℤ) - 0 < 60)) := by
  decide

/-- C2 (amended): for every key, `is_open` returns `true` iff the key's
failure count is recorded and at least `failure_threshold` and the seconds
component of the time elapsed since its last recorded failure (Python
`timedelta.seconds`: whole seconds modulo one day) is at most
`recovery_timeout`; whenever that component strictly exceeds
`recovery_timeout`, `is_open` returns `false` and resets the key's state to
failure count 0 and no last-failure time. -/
theorem circuit_open_iff (cb : CircuitBreaker) (s : CBState) (ep : String)
    (now : ℤ) :
    ((isOpen cb s ep now).1 = true ↔
      ∃ c, s.failures ep = some c ∧ cb.failure_threshold ≤ c ∧
        ∀ t, s.last_failure_time ep = some t →
          timedeltaSeconds (now - t) ≤ cb.recovery_timeout) ∧
    (∀ t, s.last_failure_time ep = some t →
      cb.recovery_timeout < timedeltaSeconds (now - t) →
      s.failures ep ≠ none →
      (isOpen cb s ep now).1 = false ∧
      (isOpen cb s ep now).2.failures ep = some 0 ∧
      (isOpen cb s ep now).2.last_failure_time ep = none) := by
  constructor
  · cases hf : s.failures ep with
    | none => simp [isOpen, hf]
    | some c =>
      cases hl : s.last_failure_time ep with
      | none =>
        simp only [isOpen, hf, hl]
        constructor
        · intro h
          exact ⟨c, rfl, of_decide_eq_true h, fun t ht => by cases ht⟩
        · rintro ⟨c', hc', hth, _⟩
          cases hc'
          exact decide_eq_true hth
      | some t =>
        by_cases hrt : timedeltaSeconds (now - t) > cb.recovery_timeout
        · simp only [isOpen, hf, hl, if_pos hrt]
          constructor
          · intro h; cases h
          · rintro ⟨c', _, _, hall⟩
            exact absurd (hall t rfl) (not_le.mpr hrt)
        · simp only [isOpen, hf, hl, if_neg hrt]
          constructor
          · intro h
            exact ⟨c, rfl, of_decide_eq_true h, fun t2 ht2 => by
              cases ht2; exact not_lt.mp hrt⟩
          · rintro ⟨c', hc', hth, _⟩
            cases hc'
            exact decide_eq_true hth
  · intro t ht hrt hf
    cases hf2 : s.failures ep with
    | none => exact absurd hf2 hf
    | some c =>
      simp [isOpen, hf2, ht, if_pos hrt, Function.update_same]

/-- Witness for C2 (amended): threshold 5, timeout 60, five failures last
recorded at time 0, checked at time 61 — the breaker resets and closes. -/
theorem circuit_open_iff_witness :
    (isOpen ⟨5, 60⟩ ⟨fun _ => some 5, fun _ => some 0⟩ "example.com" 61).1 = false ∧
    (isOpen ⟨5, 60⟩ ⟨fun _ => some 5, fun _ => some 0⟩ "example.com" 61).2.failures
      "example.com" = some 0 ∧
    (isOpen ⟨5, 60⟩ ⟨fun _ => some 5, fun _ => some 0⟩ "example.com" 61).2.last_failure_time
      "example.com" = none :=
  (circuit_open_iff ⟨5, 60⟩ ⟨fun _ => some 5, fun _ => some 0⟩ "example.com" 61).2
    0 rfl (by decide) (by simp)

/-- C3: after `failure_threshold` consecutive `record_failure` calls on a key
(no intervening success, the last failure still within the recovery window),
`is_open` returns `true`; and a single `record_success` at any point resets
the key's failure count to 0 and makes `is_open` return `false` immediately
afterwards (for a positive threshold). -/
theorem circuit_trip_and_reset (cb : CircuitBreaker)
    (hth : 1 ≤ cb.failure_threshold)
    (s sAny : CBState) (ep : String) (t : ℤ) (ts : List ℤ)
    (hlen : (t :: ts).length = cb.failure_threshold)
    (now : ℤ)
    (hrec : timedeltaSeconds (now - ts.getLastD t) ≤ cb.recovery_timeout)
    (now2 : ℤ) :
    (isOpen cb (recordFailures s ep (t :: ts)) ep now).1 = true ∧
    ((recordSuccess sAny ep).failures ep).getD 0 = 0 ∧
    (isOpen cb (recordSuccess sAny ep) ep now2).1 = false := by
  rcases recordFailures_cons ep ts s t with ⟨h1, h2⟩
  refine ⟨?_, ?_, ?_⟩
  · simp only [isOpen, h1, h2]
    rw [if_neg (not_lt.mpr hrec)]
    simp only [List.length_cons] at hlen
    exact decide_eq_true (by omega)
  · unfold recordSuccess
    cases hf : sAny.failures ep <;> simp [hf, Function.update_same]
  · cases hf : sAny.failures ep with
    | none => simp [recordSuccess, isOpen, hf]
    | some c =>
      simp only [recordSuccess, hf, isOpen, Function.update_same]
      simp
      omega

/-- Witness for C3: threshold 2, timeout 60, failures at times 0 and 1,
checked at time 1. -/
theorem circuit_trip_and_reset_witness :
    (isOpen ⟨2, 60⟩ (recordFailures CBState.init "example.com" [0, 1])
      "example.com" 1).1 = true ∧
    ((recordSuccess CBState.init "example.com").failures "example.com").getD 0 = 0 ∧
    (isOpen ⟨2, 60⟩ (recordSuccess CBState.init "example.com") "example.com" 1).1 = false :=
  circuit_trip_and_reset ⟨2, 60⟩ (by norm_num) CBState.init CBState.init
    "example.com" 0 [1] rfl 1 (by decide) 1

/-! ## Rate limiter (`RateLimiter`) -/

/-- Constructor arguments of `RateLimiter` (defaults 60 and 60). -/
structure RateLimiter where
  max_requests : ℕ
  period : ℤ

/-- `self.requests` and `self._last_cleanup`.  A domain absent from the dict
behaves exactly like one mapped to `[]` (the code inserts `[]` before every
use and the periodic sweep deletes only empty lists), so absence is modelled
as the empty list. -/
structure RLState where
  requests : String → List ℤ
  last_cleanup : ℤ

/-- `RateLimiter.check_rate_limit(domain)` at wall-clock time `now`
(`datetime.now()` and `time.time()` denote the same instant): an optional
global sweep throttled to once per 300 s, then pruning of the queried
domain's timestamps to those strictly inside the trailing window, then the
admission decision, recording `now` only on admission. -/
def checkRateLimit (rl : RateLimiter) (s : RLState) (domain : String)
    (now : ℤ) : Bool × RLState :=
  let s1 : RLState :=
    if now - s.last_cleanup > 300 then
      ⟨fun d => (s.requests d).filter (fun rt => decide (now - rl.period < rt)), now⟩
    else s
  let pruned := (s1.requests domain).filter (fun rt => decide (now - rl.period < rt))
  if pruned.length ≥ rl.max_requests then
    (false, ⟨Function.update s1.requests domain pruned, s1.last_cleanup⟩)
  else
    (true, ⟨Function.update s1.requests domain (pruned ++ [now]), s1.last_cleanup⟩)

theorem filter_idem (l : List ℤ) (p : ℤ → Bool) :
    (l.filter p).filter p = l.filter p := by
  rw [List.filter_filter]
  apply List.filter_congr
  intro x _
  exact Bool.and_self (p x)

theorem checkRateLimit_spec (rl : RateLimiter) (s : RLState) (domain : String)
    (now : ℤ) :
    (checkRateLimit rl s domain now).1
      = decide (((s.requests domain).filter
          (fun rt => decide (now - rl.period < rt))).length < rl.max_requests) ∧
    (checkRateLimit rl s domain now).2.requests domain
      = (if rl.max_requests ≤ ((s.requests domain).filter
            (fun rt => decide (now - rl.period < rt))).length
         then (s.requests domain).filter (fun rt => decide (now - rl.period < rt))
         else (s.requests domain).filter (fun rt => decide (now - rl.period < rt))
              ++ [now]) := by
  unfold checkRateLimit
  by_cases hc : now - s.last_cleanup > 300
  · simp only [if_pos hc, filter_idem]
    by_cases hlim : ((s.requests domain).filter
        (fun rt => decide (now - rl.period < rt))).length ≥ rl.max_requests
    · simp [if_pos hlim, hlim, Function.update_same]
    · simp [if_neg hlim, hlim, Function.update_same]
      omega
  · simp only [if_neg hc]
    by_cases hlim : ((s.requests domain).filter
        (fun rt => decide (now - rl.period < rt))).length ≥ rl.max_requests
    · simp [if_pos hlim, hlim, Function.update_same]
    · simp [if_neg hlim, hlim, Function.update_same]
      omega

theorem length_filter_lt {l : List ℤ} {p : ℤ → Bool} {x : ℤ} (hx : x ∈ l)
    (hpx : p x = false) : (l.filter p).length < l.length := by
  induction l with
  | nil => cases hx
  | cons a l ih =>
    rcases List.mem_cons.mp hx with rfl | hx2
    · have hle := List.length_filter_le p l
      simp [List.filter_cons, hpx]
      omega
    · have hlt := ih hx2
      have hle := List.length_filter_le p l
      by_cases hpa : p a = true
      · simp [List.filter_cons, hpa]
        omega
      · simp only [Bool.not_eq_true] at hpa
        simp [List.filter_cons, hpa]
        omega

theorem checkRateLimit_other (rl : RateLimiter) (s : RLState) (domain : String)
    (now : ℤ) (domain2 : String) (hne : domain2 ≠ domain) :
    (checkRateLimit rl s domain now).2.requests domain2 = s.requests domain2 ∨
    (checkRateLimit rl s domain now).2.requests domain2
      = (s.requests domain2).filter (fun rt => decide (now - rl.period < rt)) := by
  unfold checkRateLimit
  by_cases hc : now - s.last_cleanup > 300
  · right
    simp only [if_pos hc]
    split <;> simp [Function.update_noteq hne]
  · left
    simp only [if_neg hc]
    split <;> simp [Function.update_noteq hne]

/-- C4: after exactly `max_requests` admissions within the trailing `period`
seconds, the next admission attempt for that key is denied and records no new
timestamp; when the stored list is at the cap but its oldest entry is at
least `period` seconds old, admission succeeds again; and the admission
decision for any other key at the same or any later time is unaffected by
the call. -/
theorem rate_limit_window (rl : RateLimiter) (s : RLState) (domain : String)
    (now : ℤ) :
    ((((s.requests domain).filter (fun rt => decide (now - rl.period < rt))).length
        = rl.max_requests →
      (checkRateLimit rl s domain now).1 = false ∧
      (checkRateLimit rl s domain now).2.requests domain
        = (s.requests domain).filter (fun rt => decide (now - rl.period < rt)))) ∧
    ((s.requests domain).length = rl.max_requests →
      (∃ rt ∈ s.requests domain, rt ≤ now - rl.period) →
      (checkRateLimit rl s domain now).1 = true) ∧
    (∀ domain2, domain2 ≠ domain → ∀ now2, now ≤ now2 →
      (checkRateLimit rl (checkRateLimit rl s domain now).2 domain2 now2).1
        = (checkRateLimit rl s domain2 now2).1) := by
  refine ⟨?_, ?_, ?_⟩
  · intro hlen
    rcases checkRateLimit_spec rl s domain now with ⟨h1, h2⟩
    constructor
    · rw [h1, hlen]
      simp
    · rw [h2, if_pos (by omega)]
  · rintro hlen ⟨rt, hmem, hrt⟩
    rcases checkRateLimit_spec rl s domain now with ⟨h1, _⟩
    rw [h1]
    have hlt := length_filter_lt (p := fun rt => decide (now - rl.period < rt))
      hmem (by simp; omega)
    exact decide_eq_true (by omega)
  · intro domain2 hne now2 hnow
    rcases checkRateLimit_spec rl (checkRateLimit rl s domain now).2 domain2 now2
      with ⟨hA, _⟩
    rcases checkRateLimit_spec rl s domain2 now2 with ⟨hB, _⟩
    rw [hA, hB]
    rcases checkRateLimit_other rl s domain now domain2 hne with h | h
    · rw [h]
    · rw [h]
      have hff : ((s.requests domain2).filter
            (fun rt => decide (now - rl.period < rt))).filter
            (fun rt => decide (now2 - rl.period < rt))
          = (s.requests domain2).filter
            (fun rt => decide (now2 - rl.period < rt)) := by
        rw [List.filter_filter]
        apply List.filter_congr
        intro x _
        by_cases hx : now2 - rl.period < x
        · have hx1 : now - rl.period < x := by omega
          simp [hx, hx1]
        · simp [hx]
      rw [hff]

/-- Witness for C4: cap 2, window 10 s; at time 7 both stored stamps (5 and
6) are in the window so the next check is denied; at time 16 the stamps have
aged out and the check is admitted; a check for a different key at time 7 is
unaffected by the first call. -/
theorem rate_limit_window_witness :
    (checkRateLimit ⟨2, 10⟩ ⟨fun _ => [5, 6], 0⟩ "a" 7).1 = false ∧
    (checkRateLimit ⟨2, 10⟩ ⟨fun _ => [5, 6], 0⟩ "a" 16).1 = true ∧
    (checkRateLimit ⟨2, 10⟩ (checkRateLimit ⟨2, 10⟩ ⟨fun _ => [5, 6], 0⟩ "a" 7).2
        "b" 7).1
      = (checkRateLimit ⟨2, 10⟩ ⟨fun _ => [5, 6], 0⟩ "b" 7).1 :=
  ⟨((rate_limit_window ⟨2, 10⟩ ⟨fun _ => [5, 6], 0⟩ "a" 7).1 (by decide)).1,
   (rate_limit_window ⟨2, 10⟩ ⟨fun _ => [5, 6], 0⟩ "a" 16).2.1 (by decide)
     ⟨5, by decide, by decide⟩,
   (rate_limit_window ⟨2, 10⟩ ⟨fun _ => [5, 6], 0⟩ "a" 7).2.2 "b" (by decide)
     7 (by decide)⟩

/-- C5 counterexample: a rate limiter constructed with `max_requests = 0`
denies even the first admission check for a key with no prior requests,
refuting "for every configuration the first check is admitted". -/
theorem first_admission_counterexample :
    (checkRateLimit ⟨0, 60⟩ ⟨fun _ => [], 0⟩ "example.com" 1).1 = false := by
  decide

/-- C5 (amended): for every configuration with `max_requests ≥ 1`, the first
admission check for a key with zero prior recorded requests is admitted. -/
theorem first_admission (rl : RateLimiter) (hmax : 1 ≤ rl.max_requests)
    (s : RLState) (domain : String) (hkey : s.requests domain = [])
    (now : ℤ) :
    (checkRateLimit rl s domain now).1 = true := by
  rcases checkRateLimit_spec rl s domain now with ⟨h1, _⟩
  rw [h1, hkey]
  exact decide_eq_true (by simp; omega)

/-- Witness for C5 (amended): the default configuration admits a fresh key. -/
theorem first_admission_witness :
    (checkRateLimit ⟨60, 60⟩ ⟨fun _ => [], 0⟩ "example.com" 1).1 = true :=
  first_admission ⟨60, 60⟩ (by norm_num) ⟨fun _ => [], 0⟩ "example.com" rfl 1

/-! ## Cache (`CacheManager`) -/

/-- `CacheManager._get_cache_key(url, options)`:
`f"{url}:{json.dumps(options or {}, sort_keys=True)}"` with `/` and `:`
replaced by `_` and truncated to 100 characters; `opts` stands for the
canonical sorted-keys JSON serialization of the options. -/
def getCacheKey (url opts : String) : String :=
  (((url ++ ":" ++ opts).replace "/" "_").replace ":" "_").take 100

/-- `self.cache` as an insertion-ordered dict (Python 3.7+ semantics):
an association list of key ↦ (value, insertion timestamp), plus the `ttl`
fixed at construction. -/
structure CacheManager (V : Type) where
  entries : List (String × V × ℤ)
  ttl : ℤ

/-- Python dict assignment `d[key] = v`: in-place update if the key exists
(position preserved), append otherwise. -/
def dictSet {V : Type} (entries : List (String × V × ℤ)) (key : String)
    (v : V × ℤ) : List (String × V × ℤ) :=
  if entries.any (fun e => e.1 == key) then
    entries.map (fun e => if e.1 == key then (key, v) else e)
  else entries ++ [(key, v)]

/-- Python dict lookup `d.get(key)`. -/
def dictGet {V : Type} (entries : List (String × V × ℤ)) (key : String) :
    Option (V × ℤ) :=
  (entries.find? (fun e => e.1 == key)).map (fun e => e.2)

/-- Sort key used by the cleanup in `CacheManager.set`:
`sorted(self.cache.items(), key=lambda x: x[1][1])` orders by insertion
timestamp (Python's sort is stable). -/
def byTimestamp {V : Type} (a b : String × V × ℤ) : Prop :=
  a.2.2 ≤ b.2.2

instance {V : Type} : DecidableRel (byTimestamp (V := V)) :=
  fun a b => Int.decLe a.2.2 b.2.2

/-- `CacheManager.get(url, options)` at time `now`: `none` when caching is
disabled, the key is absent, or the entry is stale — a stale entry is
deleted (`del self.cache[key]`), which the returned state reflects. -/
def cacheGet {V : Type} (enable : Bool) (c : CacheManager V)
    (url opts : String) (now : ℤ) : Option V × CacheManager V :=
  if !enable then (none, c)
  else
    match dictGet c.entries (getCacheKey url opts) with
    | none => (none, c)
    | some (v, ts) =>
      if now - ts < c.ttl then (some v, c)
      else (none, ⟨c.entries.filter (fun e => !(e.1 == getCacheKey url opts)),
                   c.ttl⟩)

/-- `CacheManager.set(url, value, options)` at time `now`, including the
size-cap cleanup: once the dict holds more than 1000 entries, expired ones
are dropped; if more than 800 remain they are sorted by insertion timestamp
(stable) and only the newest 800 (`sorted_items[-800:]`) are kept. -/
def cacheSet {V : Type} (enable : Bool) (c : CacheManager V)
    (url opts : String) (v : V) (now : ℤ) : CacheManager V :=
  if !enable then c
  else
    let inserted := dictSet c.entries (getCacheKey url opts) (v, now)
    if 1000 < inserted.length then
      let fresh := inserted.filter (fun e => decide (now - e.2.2 < c.ttl))
      if 800 < fresh.length then
        ⟨(List.insertionSort byTimestamp fresh).drop (fresh.length - 800), c.ttl⟩
      else ⟨fresh, c.ttl⟩
    else ⟨inserted, c.ttl⟩


theorem find?_map_set {V : Type} (l : List (String × V × ℤ)) (key : String)
    (v : V × ℤ) (h : l.any (fun e => e.1 == key) = true) :
    (l.map (fun e => if e.1 == key then (key, v) else e)).find?
      (fun e => e.1 == key) = some (key, v) := by
  induction l with
  | nil => simp at h
  | cons a l ih =>
    simp only [List.map_cons]
    by_cases ha : (a.1 == key) = true
    · rw [if_pos ha]
      simp [List.find?]
    · rw [if_neg ha]
      have h2 : l.any (fun e => e.1 == key) = true := by
        rcases List.any_eq_true.mp h with ⟨x, hx, hbx⟩
        rcases List.mem_cons.mp hx with rfl | hx2
        · exact absurd hbx ha
        · exact List.any_eq_true.mpr ⟨x, hx2, hbx⟩
      have hfalse : (a.1 == key) = false := by
        simpa using ha
      simp only [List.find?, hfalse]
      exact ih h2

theorem find?_append_key {V : Type} (l : List (String × V × ℤ)) (key : String)
    (v : V × ℤ) (h : ∀ e ∈ l, (e.1 == key) = false) :
    (l ++ [(key, v)]).find? (fun e => e.1 == key) = some (key, v) := by
  induction l with
  | nil => simp [List.find?]
  | cons a l ih =>
    have ha := h a (List.mem_cons_self a l)
    simp only [List.cons_append, List.find?, ha]
    exact ih (fun e he => h e (List.mem_cons_of_mem a he))

theorem dictGet_dictSet_self {V : Type} (entries : List (String × V × ℤ))
    (key : String) (v : V × ℤ) :
    dictGet (dictSet entries key v) key = some v := by
  unfold dictGet dictSet
  by_cases h : entries.any (fun e => e.1 == key) = true
  · rw [if_pos h, find?_map_set entries key v h]
    rfl
  · rw [if_neg h]
    have hout : ∀ e ∈ entries, (e.1 == key) = false := by
      intro e he
      by_contra hbe
      rw [Bool.not_eq_false] at hbe
      exact h (List.any_eq_true.mpr ⟨e, he, hbe⟩)
    rw [find?_append_key entries key v hout]
    rfl

theorem orderedInsert_append_last {V : Type} (x y : String × V × ℤ)
    (hyx : byTimestamp y x) (l : List (String × V × ℤ)) :
    List.orderedInsert byTimestamp y (l ++ [x])
      = List.orderedInsert byTimestamp y l ++ [x] := by
  induction l with
  | nil =>
    simp only [List.nil_append, List.orderedInsert, if_pos hyx]
    rfl
  | cons b l ih =>
    by_cases hb : byTimestamp y b
    · simp only [List.cons_append, List.orderedInsert, if_pos hb]
      rfl
    · simp only [List.cons_append, List.orderedInsert, if_neg hb]
      exact congrArg (fun z => b :: z) ih

theorem insertionSort_append_last {V : Type} (x : String × V × ℤ)
    (M : List (String × V × ℤ)) (hM : ∀ y ∈ M, byTimestamp y x) :
    List.insertionSort byTimestamp (M ++ [x])
      = List.insertionSort byTimestamp M ++ [x] := by
  induction M with
  | nil => simp [List.insertionSort, List.orderedInsert]
  | cons y M ih =>
    have ih2 := ih (fun z hz => hM z (List.mem_cons_of_mem y hz))
    have hyx := hM y (List.mem_cons_self y M)
    show List.orderedInsert byTimestamp y (List.insertionSort byTimestamp (M ++ [x]))
        = List.orderedInsert byTimestamp y (List.insertionSort byTimestamp M) ++ [x]
    rw [ih2]
    exact orderedInsert_append_last x y hyx _

theorem cacheSet_hit {V : Type} (c : CacheManager V) (url opts : String)
    (v : V) (now : ℤ)
    (httl : 0 < c.ttl)
    (hts : ∀ e ∈ c.entries, e.2.2 ≤ now)
    (hcap : c.entries.length ≤ 1000) :
    dictGet (cacheSet true c url opts v now).entries (getCacheKey url opts)
      = some (v, now) ∧
    (cacheSet true c url opts v now).ttl = c.ttl := by
  have hstart : cacheSet true c url opts v now
      = (if 1000 < (dictSet c.entries (getCacheKey url opts) (v, now)).length then
           (if 800 < ((dictSet c.entries (getCacheKey url opts) (v, now)).filter
                (fun e => decide (now - e.2.2 < c.ttl))).length then
              ⟨(List.insertionSort byTimestamp
                  ((dictSet c.entries (getCacheKey url opts) (v, now)).filter
                    (fun e => decide (now - e.2.2 < c.ttl)))).drop
                (((dictSet c.entries (getCacheKey url opts) (v, now)).filter
                    (fun e => decide (now - e.2.2 < c.ttl))).length - 800), c.ttl⟩
            else ⟨(dictSet c.entries (getCacheKey url opts) (v, now)).filter
                (fun e => decide (now - e.2.2 < c.ttl)), c.ttl⟩)
         else ⟨dictSet c.entries (getCacheKey url opts) (v, now), c.ttl⟩) := rfl
  rw [hstart]
  by_cases htrig : 1000 < (dictSet c.entries (getCacheKey url opts) (v, now)).length
  · rw [if_pos htrig]
    have hany : c.entries.any (fun e => e.1 == getCacheKey url opts) = false := by
      by_contra h
      rw [Bool.not_eq_false] at h
      have hlen : (dictSet c.entries (getCacheKey url opts) (v, now)).length
          = c.entries.length := by
        unfold dictSet
        rw [if_pos h, List.length_map]
      omega
    have hout : ∀ e ∈ c.entries, (e.1 == getCacheKey url opts) = false := by
      intro e he
      by_contra hbe
      rw [Bool.not_eq_false] at hbe
      have : c.entries.any (fun e => e.1 == getCacheKey url opts) = true :=
        List.any_eq_true.mpr ⟨e, he, hbe⟩
      rw [this] at hany
      cases hany
    have hins : dictSet c.entries (getCacheKey url opts) (v, now)
        = c.entries ++ [(getCacheKey url opts, v, now)] := by
      unfold dictSet
      rw [if_neg (by simp [hany])]
    rw [hins]
    have hsingle : [((getCacheKey url opts, v, now) : String × V × ℤ)].filter
          (fun e => decide (now - e.2.2 < c.ttl))
        = [(getCacheKey url opts, v, now)] := by
      simp
      omega
    have hfreshsplit : (c.entries ++ [(getCacheKey url opts, v, now)]).filter
          (fun e => decide (now - e.2.2 < c.ttl))
        = c.entries.filter (fun e => decide (now - e.2.2 < c.ttl))
          ++ [(getCacheKey url opts, v, now)] := by
      rw [List.filter_append, hsingle]
    rw [hfreshsplit]
    by_cases hbig : 800 < (c.entries.filter (fun e => decide (now - e.2.2 < c.ttl))
        ++ [(getCacheKey url opts, v, now)]).length
    · rw [if_pos hbig]
      have hMle : ∀ y ∈ c.entries.filter (fun e => decide (now - e.2.2 < c.ttl)),
          byTimestamp y (getCacheKey url opts, v, now) :=
        fun y hy => hts y (List.mem_of_mem_filter hy)
      rw [insertionSort_append_last _ _ hMle]
      have hklen : (c.entries.filter (fun e => decide (now - e.2.2 < c.ttl))
            ++ [(getCacheKey url opts, v, now)]).length - 800
          ≤ (List.insertionSort byTimestamp
              (c.entries.filter (fun e => decide (now - e.2.2 < c.ttl)))).length := by
        rw [List.length_insertionSort]
        simp only [List.length_append, List.length_cons, List.length_nil]
        omega
      rw [List.drop_append_of_le_length hklen]
      refine ⟨?_, rfl⟩
      unfold dictGet
      rw [find?_append_key _ _ (v, now) ?hpre]
      · rfl
      intro e he
      have heS := List.mem_of_mem_drop he
      have heM := (List.perm_insertionSort byTimestamp _).subset heS
      exact hout e (List.mem_of_mem_filter heM)
    · rw [if_neg hbig]
      refine ⟨?_, rfl⟩
      unfold dictGet
      rw [find?_append_key _ _ (v, now)
        (fun e he => hout e (List.mem_of_mem_filter he))]
      rfl
  · rw [if_neg htrig]
    exact ⟨dictGet_dictSet_self c.entries (getCacheKey url opts) (v, now), rfl⟩

theorem cacheGet_hit {V : Type} (c : CacheManager V) (url opts : String)
    (now : ℤ) (v : V) (ts : ℤ)
    (hget : dictGet c.entries (getCacheKey url opts) = some (v, ts))
    (hfresh : now - ts < c.ttl) :
    cacheGet true c url opts now = (some v, c) := by
  simp only [cacheGet, Bool.not_true, Bool.false_eq_true, if_false, hget]
  rw [if_pos hfresh]

theorem cacheGet_stale {V : Type} (c : CacheManager V) (url opts : String)
    (now : ℤ) (v : V) (ts : ℤ)
    (hget : dictGet c.entries (getCacheKey url opts) = some (v, ts))
    (hstale : c.ttl ≤ now - ts) :
    cacheGet true c url opts now
      = (none, ⟨c.entries.filter (fun e => !(e.1 == getCacheKey url opts)),
          c.ttl⟩) := by
  simp only [cacheGet, Bool.not_true, Bool.false_eq_true, if_false, hget]
  rw [if_neg (by omega)]

/-- C6: with caching enabled, a positive ttl, stored timestamps not in the
future and the entry count within the soft cap, `set(url, value, options)`
followed immediately by `get(url, options)` returns the stored value; and
once `ttl` seconds or more have elapsed since an entry's insertion, `get`
returns absent and purges the entry from the cache map. -/
theorem cache_roundtrip_and_expiry {V : Type} (c : CacheManager V)
    (url opts : String) (v : V) (now : ℤ)
    (httl : 0 < c.ttl)
    (hts : ∀ e ∈ c.entries, e.2.2 ≤ now)
    (hcap : c.entries.length ≤ 1000) :
    (cacheGet true (cacheSet true c url opts v now) url opts now).1 = some v ∧
    (∀ (later : ℤ) (v2 : V) (ts : ℤ),
      dictGet c.entries (getCacheKey url opts) = some (v2, ts) →
      c.ttl ≤ later - ts →
      (cacheGet true c url opts later).1 = none ∧
      dictGet (cacheGet true c url opts later).2.entries (getCacheKey url opts)
        = none) := by
  constructor
  · rcases cacheSet_hit c url opts v now httl hts hcap with ⟨h1, h2⟩
    rw [cacheGet_hit _ url opts now v now h1 (by rw [h2]; omega)]
  · intro later v2 ts hget hstale
    rw [cacheGet_stale c url opts later v2 ts hget hstale]
    refine ⟨rfl, ?_⟩
    unfold dictGet
    rw [List.find?_eq_none.mpr ?hnone]
    · rfl
    intro x hx
    have hq := (List.mem_filter.mp hx).2
    have hfalse : (x.1 == getCacheKey url opts) = false := by
      simpa using hq
    simp [hfalse]

/-- Witness for C6: store 7 in an empty cache (ttl 300) and read it back at
the same instant; and read an entry inserted at time 0 back at time 300,
when it has expired. -/
theorem cache_roundtrip_and_expiry_witness :
    (cacheGet true (cacheSet true (⟨[], 300⟩ : CacheManager ℕ) "u" "o" 7 0)
      "u" "o" 0).1 = some 7 ∧
    (cacheGet true (⟨[(getCacheKey "u" "o", 7, 0)], 300⟩ : CacheManager ℕ)
      "u" "o" 300).1 = none :=
  ⟨(cache_roundtrip_and_expiry ⟨[], 300⟩ "u" "o" 7 0 (by norm_num)
      (by simp) (by norm_num)).1,
   ((cache_roundtrip_and_expiry ⟨[(getCacheKey "u" "o", 7, 0)], 300⟩ "u" "o" 7 0
      (by norm_num) (by simp) (by norm_num)).2
      300 7 0 (by simp [dictGet, List.find?]) (by norm_num)).1⟩

/-- C7: when an insertion pushes the tracked entry count above the soft cap
of 1000, the cleanup triggered by that insertion leaves the count at or
below the soft cap (at most 800 when the second phase runs): all stale
entries are removed first, and every fresh entry nevertheless discarded by
the second phase is at least as old as every kept entry — oldest-inserted
entries are removed, newest kept. -/
theorem cache_size_bound {V : Type} (c : CacheManager V) (url opts : String)
    (v : V) (now : ℤ)
    (htrig : 1000 < (dictSet c.entries (getCacheKey url opts) (v, now)).length) :
    (cacheSet true c url opts v now).entries.length ≤ 1000 ∧
    (∀ e ∈ (cacheSet true c url opts v now).entries, now - e.2.2 < c.ttl) ∧
    (∀ e ∈ dictSet c.entries (getCacheKey url opts) (v, now),
      decide (now - e.2.2 < c.ttl) = true →
      e ∉ (cacheSet true c url opts v now).entries →
      ∀ e2 ∈ (cacheSet true c url opts v now).entries, e.2.2 ≤ e2.2.2) := by
  haveI : IsTotal (String × V × ℤ) byTimestamp := ⟨fun a b => le_total a.2.2 b.2.2⟩
  haveI : IsTrans (String × V × ℤ) byTimestamp :=
    ⟨fun a b d hab hbd => le_trans hab hbd⟩
  have hstart : cacheSet true c url opts v now
      = (if 1000 < (dictSet c.entries (getCacheKey url opts) (v, now)).length then
           (if 800 < ((dictSet c.entries (getCacheKey url opts) (v, now)).filter
                (fun e => decide (now - e.2.2 < c.ttl))).length then
              ⟨(List.insertionSort byTimestamp
                  ((dictSet c.entries (getCacheKey url opts) (v, now)).filter
                    (fun e => decide (now - e.2.2 < c.ttl)))).drop
                (((dictSet c.entries (getCacheKey url opts) (v, now)).filter
                    (fun e => decide (now - e.2.2 < c.ttl))).length - 800), c.ttl⟩
            else ⟨(dictSet c.entries (getCacheKey url opts) (v, now)).filter
                (fun e => decide (now - e.2.2 < c.ttl)), c.ttl⟩)
         else ⟨dictSet c.entries (getCacheKey url opts) (v, now), c.ttl⟩) := rfl
  have hentries : (cacheSet true c url opts v now).entries
      = (if 1000 < (dictSet c.entries (getCacheKey url opts) (v, now)).length then
          (if 800 < ((dictSet c.entries (getCacheKey url opts) (v, now)).filter
               (fun e => decide (now - e.2.2 < c.ttl))).length then
             (List.insertionSort byTimestamp
                 ((dictSet c.entries (getCacheKey url opts) (v, now)).filter
                   (fun e => decide (now - e.2.2 < c.ttl)))).drop
               (((dictSet c.entries (getCacheKey url opts) (v, now)).filter
                   (fun e => decide (now - e.2.2 < c.ttl))).length - 800)
           else (dictSet c.entries (getCacheKey url opts) (v, now)).filter
               (fun e => decide (now - e.2.2 < c.ttl)))
         else dictSet c.entries (getCacheKey url opts) (v, now)) := by
    rw [hstart, apply_ite CacheManager.entries, apply_ite CacheManager.entries]
  rw [hentries, if_pos htrig]
  by_cases hbig : 800 < ((dictSet c.entries (getCacheKey url opts) (v, now)).filter
      (fun e => decide (now - e.2.2 < c.ttl))).length
  · rw [if_pos hbig]
    refine ⟨?_, ?_, ?_⟩
    · rw [List.length_drop, List.length_insertionSort]
      omega
    · intro e he
      have heS := List.mem_of_mem_drop he
      have heF := (List.perm_insertionSort byTimestamp _).subset heS
      exact of_decide_eq_true (List.mem_filter.mp heF).2
    · intro e heIns heFresh heOut e2 he2
      have heF : e ∈ (dictSet c.entries (getCacheKey url opts) (v, now)).filter
          (fun e => decide (now - e.2.2 < c.ttl)) :=
        List.mem_filter.mpr ⟨heIns, heFresh⟩
      have heS2 := ((List.perm_insertionSort byTimestamp _).mem_iff).mpr heF
      have hsorted : List.Pairwise byTimestamp (List.insertionSort byTimestamp
          ((dictSet c.entries (getCacheKey url opts) (v, now)).filter
            (fun e => decide (now - e.2.2 < c.ttl)))) :=
        List.sorted_insertionSort byTimestamp _
      rw [← List.take_append_drop
          (((dictSet c.entries (getCacheKey url opts) (v, now)).filter
            (fun e => decide (now - e.2.2 < c.ttl))).length - 800)
          (List.insertionSort byTimestamp
            ((dictSet c.entries (getCacheKey url opts) (v, now)).filter
              (fun e => decide (now - e.2.2 < c.ttl))))] at heS2 hsorted
      rcases List.pairwise_append.mp hsorted with ⟨_, _, hcross⟩
      rcases List.mem_append.mp heS2 with heTake | heDrop
      · exact hcross e heTake e2 he2
      · exact absurd heDrop heOut
  · rw [if_neg hbig]
    refine ⟨?_, ?_, ?_⟩
    · omega
    · intro e he
      exact of_decide_eq_true (List.mem_filter.mp he).2
    · intro e heIns heFresh heOut
      exact absurd (List.mem_filter.mpr ⟨heIns, heFresh⟩) heOut

/-- Witness for C7: 1001 copies of one key inserted at time 0 with ttl 10;
an insertion at time 20 triggers the cleanup, which discards the stale
entries and leaves the count within the cap. -/
theorem cache_size_bound_witness :
    (cacheSet true (⟨List.replicate 1001 (getCacheKey "u" "o", 0, 0), 10⟩ :
      CacheManager ℕ) "u" "o" 5 20).entries.length ≤ 1000 :=
  (cache_size_bound ⟨List.replicate 1001 (getCacheKey "u" "o", 0, 0), 10⟩
    "u" "o" 5 20
    (by
      have hany : (List.replicate 1001
            ((getCacheKey "u" "o", 0, 0) : String × ℕ × ℤ)).any
          (fun e => e.1 == getCacheKey "u" "o") = true := by
        refine List.any_eq_true.mpr ⟨(getCacheKey "u" "o", 0, 0), ?_, ?_⟩
        · exact List.mem_replicate.mpr ⟨by norm_num, rfl⟩
        · simp
      unfold dictSet
      rw [if_pos hany, List.length_map, List.length_replicate]
      norm_num)).1

/-! ## Authenticated session registry (`AuthSessionManager`) -/

/-- A client instance (`aiohttp.ClientSession`): its identity (an allocation
counter, standing for object identity) and its `closed` flag. -/
structure Client where
  id : ℕ
  closed : Bool
  deriving Repr, DecidableEq

/-- `self._sessions` plus the allocation counter giving each created client
a distinct identity; `none` models absence from the dict. -/
structure AuthState where
  sessions : String → Option Client
  nextId : ℕ

/-- The registry starts empty. -/
def AuthState.init : AuthState :=
  ⟨fun _ => none, 0⟩

/-- Every stored client was allocated before the counter's current value
(holds for every reachable state). -/
def AuthState.wf (s : AuthState) : Prop :=
  ∀ sid cl, s.sessions sid = some cl → cl.id < s.nextId

/-- `AuthSessionManager.get_or_create_session(session_id)`: reuse the stored
client unless the id is absent or its client is closed, in which case a
fresh client is created and stored. -/
def getOrCreateSession (s : AuthState) (sid : String) : Client × AuthState :=
  match s.sessions sid with
  | some cl =>
    if cl.closed then
      (⟨s.nextId, false⟩,
       ⟨Function.update s.sessions sid (some ⟨s.nextId, false⟩), s.nextId + 1⟩)
    else (cl, s)
  | none =>
    (⟨s.nextId, false⟩,
     ⟨Function.update s.sessions sid (some ⟨s.nextId, false⟩), s.nextId + 1⟩)

/-- `AuthSessionManager.close_session(session_id)`: closes the stored client
and deletes the entry; a missing id is a no-op. -/
def closeSession (s : AuthState) (sid : String) : AuthState :=
  match s.sessions sid with
  | some _ => ⟨Function.update s.sessions sid none, s.nextId⟩
  | none => s

theorem wf_update (s : AuthState) (hwf : AuthState.wf s) (sid : String) :
    AuthState.wf ⟨Function.update s.sessions sid (some ⟨s.nextId, false⟩),
      s.nextId + 1⟩ := by
  intro sid2 cl2 h2
  dsimp only at h2
  by_cases he : sid2 = sid
  · subst he
    rw [Function.update_same] at h2
    cases h2
    exact Nat.lt_succ_self _
  · rw [Function.update_noteq he] at h2
    exact Nat.lt_succ_of_lt (hwf sid2 cl2 h2)

theorem getOrCreateSession_stored (s : AuthState) (sid : String) :
    ((getOrCreateSession s sid).2).sessions sid
      = some (getOrCreateSession s sid).1 ∧
    ((getOrCreateSession s sid).1).closed = false := by
  cases hs : s.sessions sid with
  | none =>
    constructor
    · simp only [getOrCreateSession, hs]
      exact Function.update_same _ _ _
    · simp only [getOrCreateSession, hs]
  | some cl =>
    by_cases hc : cl.closed = true
    · constructor
      · simp only [getOrCreateSession, hs]
        rw [if_pos hc]
        exact Function.update_same _ _ _
      · simp only [getOrCreateSession, hs]
        rw [if_pos hc]
    · constructor
      · simp only [getOrCreateSession, hs]
        rw [if_neg hc]
        exact hs
      · simp only [getOrCreateSession, hs]
        rw [if_neg hc]
        simpa using hc

theorem getOrCreateSession_id_lt (s : AuthState) (hwf : AuthState.wf s)
    (sid : String) :
    ((getOrCreateSession s sid).1).id < ((getOrCreateSession s sid).2).nextId := by
  cases hs : s.sessions sid with
  | none =>
    simp only [getOrCreateSession, hs]
    exact Nat.lt_succ_self _
  | some cl =>
    by_cases hc : cl.closed = true
    · simp only [getOrCreateSession, hs]
      rw [if_pos hc]
      exact Nat.lt_succ_self _
    · simp only [getOrCreateSession, hs]
      rw [if_neg hc]
      exact hwf sid cl hs

/-- C9: two `get_or_create_session` calls with the same id and no
intervening close return the same client instance; after `close_session`, a
subsequent `get_or_create_session` with the same id returns a different
(new) instance; and `close_session` on an id with no live session leaves the
state unchanged — each id maps to at most one live client. -/
theorem session_pool_identity (s : AuthState) (hwf : AuthState.wf s)
    (sid : String) :
    (getOrCreateSession (getOrCreateSession s sid).2 sid).1
      = (getOrCreateSession s sid).1 ∧
    (getOrCreateSession (closeSession (getOrCreateSession s sid).2 sid) sid).1
      ≠ (getOrCreateSession s sid).1 ∧
    (s.sessions sid = none → closeSession s sid = s) := by
  rcases getOrCreateSession_stored s sid with ⟨hst, hcl⟩
  have hlt := getOrCreateSession_id_lt s hwf sid
  rcases hpair : getOrCreateSession s sid with ⟨cl1, s1⟩
  rw [hpair] at hst hcl hlt
  dsimp only at hst hcl hlt ⊢
  refine ⟨?_, ?_, ?_⟩
  · simp only [getOrCreateSession, hst]
    rw [if_neg (by simp [hcl])]
  · have hclose : (closeSession s1 sid).sessions sid = none := by
      simp only [closeSession, hst]
      exact Function.update_same _ _ _
    have hnext : (closeSession s1 sid).nextId = s1.nextId := by
      simp only [closeSession, hst]
    simp only [getOrCreateSession, hclose]
    intro heq
    have hid : cl1.id = (closeSession s1 sid).nextId := by
      rw [← heq]
    rw [hnext] at hid
    omega
  · intro hnone
    simp only [closeSession, hnone]

/-- Witness for C9 starting from the empty registry. -/
theorem session_pool_identity_witness :
    (getOrCreateSession (getOrCreateSession AuthState.init "alice").2 "alice").1
      = (getOrCreateSession AuthState.init "alice").1 ∧
    (getOrCreateSession
        (closeSession (getOrCreateSession AuthState.init "alice").2 "alice")
        "alice").1
      ≠ (getOrCreateSession AuthState.init "alice").1 ∧
    (AuthState.init.sessions "alice" = none →
      closeSession AuthState.init "alice" = AuthState.init) :=
  session_pool_identity AuthState.init
    (fun _ _ h => by simp [AuthState.init] at h) "alice"

/-! ## Fetch control flow (`scrape_webpage`) -/

/-- How one `scrape_webpage` call ends: a returned result dict (`ok` for a
success payload, possibly served from cache; `errorDict` for the structured
failure dict built by the generic handler), or a raised exception
(`ValueError` for an invalid URL, `CircuitBreakerError` re-raised by the
dedicated handler, or — only hypothetically — any other exception
propagating; the source's generic `except` converts those into error dicts,
so no code path below produces `raisedOther`). -/
inductive ScrapeOut (V E : Type) where
  | ok (v : V) (cached : Bool)
  | raisedInvalidUrl
  | raisedCircuitOpen
  | raisedOther (e : E)
  | errorDict (e : E)

/-- Outcome of a `scrape_webpage` call together with the shared state it
leaves behind and the number of HTTP attempts made. -/
structure ScrapeResult (V E : Type) where
  outcome : ScrapeOut V E
  cb : CBState
  rl : RLState
  cache : CacheManager V
  httpCalls : ℕ

/-- `RateLimiter.wait_if_needed(domain)`: poll `check_rate_limit` once per
second until admitted.  The loop is unbounded in the source; `fuel` bounds
the modelled number of polls and `none` means the fuel ran out. -/
def waitIfNeeded (rl : RateLimiter) (s : RLState) (domain : String)
    (now : ℤ) : ℕ → Option (RLState × ℤ)
  | 0 => none
  | fuel + 1 =>
    match checkRateLimit rl s domain now with
    | (true, s2) => some (s2, now)
    | (false, s2) => waitIfNeeded rl s2 domain (now + 1) fuel

/-- The `scrape_webpage(url, options)` orchestration at time `now`:
URL validation (`ValueError` outside the `try`), cache lookup,
circuit-breaker check (`CircuitBreakerError` re-raised by its dedicated
handler), rate-limiter admission, then the HTTP request wrapped in
`retry_with_backoff` with its default arguments (`max_retries = None`,
factor 2, cap 60); on success the circuit breaker records a success and the
cache is populated, on any other exception the circuit breaker records a
failure and a structured error dict is returned.  `attempts i` is the
outcome of the `i`-th HTTP attempt; the final `match` arm is unreachable
because the default retry count is 3 ≥ 1. -/
def scrapeWebpage {V E : Type} (enableCache : Bool) (cb : CircuitBreaker)
    (rl : RateLimiter) (validUrl useCache : Bool)
    (cbS : CBState) (rlS : RLState) (cache : CacheManager V)
    (url opts domain : String) (now : ℤ) (fuel : ℕ)
    (attempts : ℕ → Except E V) : Option (ScrapeResult V E) :=
  if !validUrl then some ⟨.raisedInvalidUrl, cbS, rlS, cache, 0⟩
  else
    match (if useCache then cacheGet enableCache cache url opts now
           else (none, cache)) with
    | (some v, cache1) => some ⟨.ok v true, cbS, rlS, cache1, 0⟩
    | (none, cache1) =>
      match isOpen cb cbS domain now with
      | (true, cbS1) => some ⟨.raisedCircuitOpen, cbS1, rlS, cache1, 0⟩
      | (false, cbS1) =>
        match waitIfNeeded rl rlS domain now fuel with
        | none => none
        | some (rlS1, now2) =>
          let res := retryWithBackoff attempts none 2 60
          match res.result with
          | some (.ok v) =>
            some ⟨.ok v false, recordSuccess cbS1 domain, rlS1,
              (if useCache then cacheSet enableCache cache1 url opts v now2
               else cache1), res.calls⟩
          | some (.error e) =>
            some ⟨.errorDict e, recordFailure cbS1 domain now2, rlS1, cache1,
              res.calls⟩
          | none => none

/-- C8 counterexample: invalid-URL handling aside, with a closed breaker and
every HTTP attempt failing, `scrape_webpage` does not propagate the
exhausted retry error to the caller — it returns a structured error dict
(`success: False`), not a raised exception, refuting "propagates the error
to the caller". -/
theorem scrape_flow_counterexample :
    ((scrapeWebpage true ⟨5, 60⟩ ⟨60, 60⟩ true false CBState.init
        ⟨fun _ => [], 0⟩ (⟨[], 300⟩ : CacheManager ℕ) "u" "o" "d" 0 1
        (fun _ => Except.error (0 : ℕ))).map (fun r => r.outcome)
      = some (ScrapeOut.errorDict 0)) ∧
    (ScrapeOut.errorDict (0 : ℕ) : ScrapeOut ℕ ℕ) ≠ ScrapeOut.raisedOther 0 := by
  refine ⟨rfl, ?_⟩
  intro h
  cases h

/-- C8 (amended): when the cache does not serve the request and the circuit
breaker is open for the domain, `scrape_webpage` raises `CircuitBreakerError`
to the caller without a single HTTP attempt; and when every HTTP attempt
fails, the retry wrapper exhausts its default three attempts, a
circuit-breaker failure is recorded for the domain (count incremented,
last-failure time set), and the final error is returned to the caller as a
structured error dict rather than raised. -/
theorem scrape_flow {V E : Type} (cb : CircuitBreaker) (rl : RateLimiter)
    (useCache enableCache : Bool) (cbS : CBState) (rlS : RLState)
    (cache : CacheManager V) (url opts domain : String) (now : ℤ) (fuel : ℕ)
    (attempts : ℕ → Except E V)
    (hmiss : (if useCache then cacheGet enableCache cache url opts now
              else (none, cache)).1 = none) :
    ((isOpen cb cbS domain now).1 = true →
      (scrapeWebpage enableCache cb rl true useCache cbS rlS cache url opts
          domain now fuel attempts).map (fun r => r.outcome)
        = some ScrapeOut.raisedCircuitOpen ∧
      (scrapeWebpage enableCache cb rl true useCache cbS rlS cache url opts
          domain now fuel attempts).map (fun r => r.httpCalls) = some 0) ∧
    (∀ errs : ℕ → E, (∀ i, attempts i = Except.error (errs i)) →
      (isOpen cb cbS domain now).1 = false →
      ∀ rlS1 : RLState, ∀ now2 : ℤ,
        waitIfNeeded rl rlS domain now fuel = some (rlS1, now2) →
        (scrapeWebpage enableCache cb rl true useCache cbS rlS cache url opts
            domain now fuel attempts).map (fun r => r.outcome)
          = some (ScrapeOut.errorDict (errs 2)) ∧
        (scrapeWebpage enableCache cb rl true useCache cbS rlS cache url opts
            domain now fuel attempts).map (fun r => r.httpCalls) = some 3 ∧
        (scrapeWebpage enableCache cb rl true useCache cbS rlS cache url opts
            domain now fuel attempts).map (fun r => r.cb.failures domain)
          = some (some ((((isOpen cb cbS domain now).2).failures domain).getD 0
              + 1)) ∧
        (scrapeWebpage enableCache cb rl true useCache cbS rlS cache url opts
            domain now fuel attempts).map
            (fun r => r.cb.last_failure_time domain)
          = some (some now2)) := by
  have hp : (if useCache then cacheGet enableCache cache url opts now
        else (none, cache))
      = (none, (if useCache then cacheGet enableCache cache url opts now
          else (none, cache)).2) := by
    rw [Prod.ext_iff]
    exact ⟨hmiss, rfl⟩
  constructor
  · intro hopen
    rcases hio : isOpen cb cbS domain now with ⟨b, cbS1⟩
    rw [hio] at hopen
    dsimp only at hopen
    subst hopen
    refine ⟨?_, ?_⟩ <;>
    · simp only [scrapeWebpage, Bool.not_true, Bool.false_eq_true, if_false]
      rw [hp, hio]
      rfl
  · intro errs hfail hclosed rlS1 now2 hadmit
    rcases hio : isOpen cb cbS domain now with ⟨b, cbS1⟩
    rw [hio] at hclosed
    dsimp only at hclosed
    subst hclosed
    have hatt : attempts = fun i => Except.error (errs i) := funext hfail
    subst hatt
    have hmain : scrapeWebpage enableCache cb rl true useCache cbS rlS cache
        url opts domain now fuel (fun i => Except.error (errs i))
        = some ⟨.errorDict (errs 2), recordFailure cbS1 domain now2, rlS1,
            (if useCache then cacheGet enableCache cache url opts now
             else (none, cache)).2, 3⟩ := by
      simp only [scrapeWebpage, Bool.not_true, Bool.false_eq_true, if_false]
      rw [hp, hio, hadmit]
      rw [show retryWithBackoff (fun i => (Except.error (errs i) : Except E V))
            none 2 60
          = retryGo (fun i => Except.error (errs i)) 2 60 0 (2 + 1) from rfl,
        retryGo_allFail errs 2 60 2 0]
    rw [hmain]
    refine ⟨rfl, rfl, ?_, ?_⟩
    · simp [recordFailure, Function.update_same]
    · simp [recordFailure, Function.update_same]

/-- Witness for C8 (amended), exhaustion path: closed breaker, empty rate
window, caching off, every attempt failing with its index — the call returns
the error dict for the third attempt after three HTTP calls. -/
theorem scrape_flow_witness :
    ((scrapeWebpage true ⟨5, 60⟩ ⟨60, 60⟩ true false CBState.init
        ⟨fun _ => [], 0⟩ (⟨[], 300⟩ : CacheManager ℕ) "u" "o" "d" 0 1
        (fun i => Except.error i)).map (fun r => r.outcome)
      = some (ScrapeOut.errorDict 2)) ∧
    ((scrapeWebpage true ⟨5, 60⟩ ⟨60, 60⟩ true false CBState.init
        ⟨fun _ => [], 0⟩ (⟨[], 300⟩ : CacheManager ℕ) "u" "o" "d" 0 1
        (fun i => Except.error i)).map (fun r => r.httpCalls) = some 3) :=
  have h := (scrape_flow ⟨5, 60⟩ ⟨60, 60⟩ false true CBState.init
    ⟨fun _ => [], 0⟩ (⟨[], 300⟩ : CacheManager ℕ) "u" "o" "d" 0 1
    (fun i => Except.error i) rfl).2 (fun i => i) (fun _ => rfl) rfl
    ((checkRateLimit ⟨60, 60⟩ ⟨fun _ => [], 0⟩ "d" 0).2) 0 rfl
  ⟨h.1, h.2.1⟩
